import Mathlib

/-!
Verification of the webrt-monorepo signaling hub and multi-peer client.

The hub (`apps/signaling/src/index.ts`) keeps an in-memory registry
`roomMembers : Map roomId (Map socketId Member)` plus the socket.io
broadcast groups, and handles the `join-room`, `leave-room`, `disconnect`,
`offer`, `answer` and `ice-candidate` events.  The client
(`MultiPeerWebRTCClient`) keeps a `Map socketId RemotePeer` and a
per-socket `isNegotiating` set, and drives the offer/answer dialogue.

JavaScript `Map`s are embedded as association lists that keep insertion
order: `set` of an existing key updates the entry in place, `set` of a
fresh key appends, `delete` removes, and iteration follows list order,
exactly as JavaScript `Map` iteration does.
-/

/-- Association list with JavaScript `Map` semantics (string keys,
insertion order preserved). -/
abbrev JMap (α : Type) : Type := List (String × α)

/-- `Map.get`: the value of the first entry with the given key. -/
def jget {α : Type} (m : JMap α) (k : String) : Option α :=
  (m.find? (fun p => p.1 == k)).map Prod.snd

/-- `Map.has`. -/
def jhas {α : Type} (m : JMap α) (k : String) : Bool :=
  m.any (fun p => p.1 == k)

/-- `Map.set`: update in place when the key is present, append otherwise. -/
def jset {α : Type} (m : JMap α) (k : String) (v : α) : JMap α :=
  if jhas m k then m.map (fun p => if p.1 == k then (k, v) else p)
  else m ++ [(k, v)]

/-- `Map.delete`. -/
def jdel {α : Type} (m : JMap α) (k : String) : JMap α :=
  m.filter (fun p => p.1 != k)

/-- One registry entry: `{ userId, socketId, peerId }`. -/
structure Member where
  userId : String
  socketId : String
  peerId : String
deriving DecidableEq

/-- Messages the hub emits to sockets.  `error` and `roomJoined` go to a
single socket (`socket.emit`); the broadcast constructors carry the list
of receiving sockets computed from the socket.io room minus the sender
(`socket.to(roomId).emit`). -/
inductive OutEvent where
  | error : String → String → OutEvent
  | roomJoined : String → String → List Member → OutEvent
  | userJoined : List String → String → String → String → OutEvent
  | userLeft : List String → String → String → OutEvent
  | forwarded : String → List String → String → String → Option String → OutEvent
deriving DecidableEq

/-- Hub state: the in-memory registry `roomMembers` plus the socket.io
room membership (which sockets receive a `socket.to(roomId)` broadcast). -/
structure HubState where
  roomMembers : JMap (JMap Member)
  socketRooms : JMap (List String)
deriving DecidableEq

def initHub : HubState := ⟨[], []⟩

/-- Receivers of `socket.to(roomId).emit(...)`: every socket currently in
the socket.io room except the sender. -/
def roomRecipients (sr : JMap (List String)) (roomId sender : String) : List String :=
  ((jget sr roomId).getD []).filter (fun s => s != sender)

/-- `socket.join(roomId)`. -/
def socketJoin (sr : JMap (List String)) (roomId s : String) : JMap (List String) :=
  let cur := (jget sr roomId).getD []
  if cur.contains s then sr else jset sr roomId (cur ++ [s])

/-- `socket.leave(roomId)`. -/
def socketLeave (sr : JMap (List String)) (roomId s : String) : JMap (List String) :=
  match jget sr roomId with
  | none => sr
  | some cur => jset sr roomId (cur.filter (fun x => x != s))

/-- socket.io removes a disconnecting socket from every room. -/
def socketLeaveAll (sr : JMap (List String)) (s : String) : JMap (List String) :=
  sr.map (fun p => (p.1, p.2.filter (fun x => x != s)))

/-- The `join-room` handler.  Creates the room lazily, rejects with
`error{message:"Room is full"}` when the member map already has 10
entries, otherwise joins the socket.io room, inserts the member, and
emits `user-joined` to the others followed by `room-joined` (listing the
other members) to the joiner.  `peerId` is the freshly generated uuid. -/
def joinRoom (st : HubState) (roomId userId socketId peerId : String) :
    HubState × List OutEvent :=
  let rm0 := if jhas st.roomMembers roomId then st.roomMembers
             else jset st.roomMembers roomId []
  let roomUsers := (jget rm0 roomId).getD []
  if 10 ≤ roomUsers.length then
    ({ st with roomMembers := rm0 }, [OutEvent.error socketId "Room is full"])
  else
    let sr1 := socketJoin st.socketRooms roomId socketId
    let roomUsers2 := jset roomUsers socketId
      { userId := userId, socketId := socketId, peerId := peerId }
    let rm1 := jset rm0 roomId roomUsers2
    let others := (roomUsers2.filter (fun p => p.2.socketId != socketId)).map Prod.snd
    ({ roomMembers := rm1, socketRooms := sr1 },
     [OutEvent.userJoined (roomRecipients sr1 roomId socketId) userId peerId socketId,
      OutEvent.roomJoined socketId roomId others])

/-- The `leave-room` handler.  Leaves the socket.io room, removes the
member if the room exists, deletes the room when it becomes empty, and
then emits `user-left` unconditionally. -/
def leaveRoom (st : HubState) (roomId userId socketId : String) :
    HubState × List OutEvent :=
  let sr1 := socketLeave st.socketRooms roomId socketId
  let rm1 :=
    match jget st.roomMembers roomId with
    | none => st.roomMembers
    | some roomUsers =>
      let ru := jdel roomUsers socketId
      if ru.length = 0 then jdel st.roomMembers roomId
      else jset st.roomMembers roomId ru
  ({ roomMembers := rm1, socketRooms := sr1 },
   [OutEvent.userLeft (roomRecipients sr1 roomId socketId) userId socketId])

/-- The loop body of the `disconnect` handler over the registry entries:
for every room containing the socket, fetch the user, delete the entry,
emit `user-left`, and drop the room when it becomes empty. -/
def discRooms (sr : JMap (List String)) (s : String) :
    List (String × JMap Member) → List (String × JMap Member) × List OutEvent
  | [] => ([], [])
  | (rid, users) :: rest =>
    let done := discRooms sr s rest
    if jhas users s then
      let uid := ((jget users s).map Member.userId).getD "unknown"
      let users2 := jdel users s
      let ev := OutEvent.userLeft (roomRecipients sr rid s) uid s
      if users2.length = 0 then (done.1, ev :: done.2)
      else ((rid, users2) :: done.1, ev :: done.2)
    else ((rid, users) :: done.1, done.2)

/-- The `disconnect` handler (socket.io has already removed the socket
from every socket.io room when it runs). -/
def disconnect (st : HubState) (s : String) : HubState × List OutEvent :=
  let sr1 := socketLeaveAll st.socketRooms s
  let r := discRooms sr1 s st.roomMembers
  ({ roomMembers := r.1, socketRooms := sr1 }, r.2)

/-- The `offer` / `answer` / `ice-candidate` handlers: re-emit the
payload to the socket.io room minus the sender, stamping `from` with the
sender's socket id and passing `targetPeerId` through untouched. -/
def relayEvent (st : HubState) (etype roomId senderSocket payload : String)
    (targetPeerId : Option String) : List OutEvent :=
  [OutEvent.forwarded etype (roomRecipients st.socketRooms roomId senderSocket)
    payload senderSocket targetPeerId]

/-- The registry-mutating events of the hub. -/
inductive HubCmd where
  | join : String → String → String → String → HubCmd
  | leave : String → String → String → HubCmd
  | disc : String → HubCmd

def stepHub (st : HubState) : HubCmd → HubState × List OutEvent
  | HubCmd.join roomId userId socketId peerId => joinRoom st roomId userId socketId peerId
  | HubCmd.leave roomId userId socketId => leaveRoom st roomId userId socketId
  | HubCmd.disc socketId => disconnect st socketId

def runHub (st : HubState) : List HubCmd → HubState
  | [] => st
  | c :: cs => runHub (stepHub st c).1 cs

/-! ### Client side: `MultiPeerWebRTCClient` -/

/-- `RTCPeerConnection.signalingState` values used by the client. -/
inductive SignalingState where
  | stable
  | haveLocalOffer
  | haveRemoteOffer
deriving DecidableEq

/-- `RTCPeerConnection.iceConnectionState` values. -/
inductive IceConnState where
  | new
  | checking
  | connected
  | completed
  | failed
  | disconnected
  | closed
deriving DecidableEq

/-- A media track: its kind ("audio"/"video") and its `enabled` bit. -/
structure Track where
  kind : String
  enabled : Bool
deriving DecidableEq

/-- A `RemotePeer` entry of the client together with the observable state
of its `RTCPeerConnection` engine: signaling and ICE state, the remote
description (if applied), the ingested ICE candidates, and the tracks
held by its senders. -/
structure RemotePeer where
  userId : String
  peerId : String
  socketId : String
  signalingState : SignalingState
  iceConnectionState : IceConnState
  remoteDescription : Option String
  candidates : List String
  senders : List Track
  stream : Option (List Track)
  isInitiator : Bool
deriving DecidableEq

/-- Observable actions of the client: messages emitted to the hub,
invocations of the error callback, and engine closures. -/
inductive ClientOut where
  | sendOffer : String → Option String → ClientOut
  | sendAnswer : String → Option String → ClientOut
  | errorCb : String → ClientOut
  | closedPeer : String → ClientOut
deriving DecidableEq

/-- The mutable state of a `MultiPeerWebRTCClient`. -/
structure ClientState where
  roomId : String
  userId : String
  socketConnected : Bool
  localStream : Option (List Track)
  remotePeers : JMap RemotePeer
  isNegotiating : List String
deriving DecidableEq

/-- `createOffer(peer)`: no-op when `isNegotiating` already holds the
socket id; otherwise the flag is added and removed again in the
`finally`, and the offer is created, applied locally
(`signalingState := have-local-offer`) and emitted only when the
signaling state is `stable` AND the ICE connection state is `new`, the
engine calls succeed (`engineOk`), and the socket exists.  An engine
throw is caught, leaving state and output empty. -/
def createOffer (st : ClientState) (peer : RemotePeer) (engineOk : Bool) :
    ClientState × List ClientOut :=
  if st.isNegotiating.contains peer.socketId then (st, [])
  else
    if peer.signalingState = SignalingState.stable ∧
        peer.iceConnectionState = IceConnState.new then
      if engineOk then
        let peer2 := { peer with signalingState := SignalingState.haveLocalOffer }
        let st2 := { st with remotePeers := jset st.remotePeers peer.socketId peer2 }
        if st.socketConnected then
          (st2, [ClientOut.sendOffer st.roomId (some peer.peerId)])
        else (st2, [])
      else (st, [])
    else (st, [])

/-- `handleAnswer(peer, answer)`: applies the remote description only in
`have-local-offer` (reaching `stable`); any other state only logs a
warning.  An engine throw whose message mentions "stable" is only
logged; any other engine throw reaches the error callback. -/
def handleAnswer (st : ClientState) (peer : RemotePeer) (ans : String)
    (engineOk errMentionsStable : Bool) : ClientState × List ClientOut :=
  if peer.signalingState = SignalingState.haveLocalOffer then
    if engineOk then
      let peer2 := { peer with signalingState := SignalingState.stable,
                               remoteDescription := some ans }
      ({ st with remotePeers := jset st.remotePeers peer.socketId peer2 }, [])
    else if errMentionsStable then (st, [])
    else (st, [ClientOut.errorCb "Error handling answer"])
  else (st, [])

/-- The `ice-candidate` socket listener: look the peer up by the `from`
socket id; when both the peer and the candidate are present, hand the
candidate to the engine (a failing `addIceCandidate` only warns);
otherwise drop silently. -/
def handleIceCandidate (st : ClientState) (fromSocket : String)
    (cand : Option String) (engineOk : Bool) : ClientState × List ClientOut :=
  match jget st.remotePeers fromSocket with
  | none => (st, [])
  | some peer =>
    match cand with
    | none => (st, [])
    | some c =>
      if engineOk then
        let peer2 := { peer with candidates := peer.candidates ++ [c] }
        ({ st with remotePeers := jset st.remotePeers fromSocket peer2 }, [])
      else (st, [])

/-- `removePeerConnection(userId)`: find the first map entry whose peer
has that `userId`; close its engine, stop its stream, and delete the
entry keyed by that peer's socket id. -/
def removePeerConnection (st : ClientState) (uid : String) :
    ClientState × List ClientOut :=
  match st.remotePeers.find? (fun p => p.2.userId == uid) with
  | none => (st, [])
  | some p =>
    ({ st with remotePeers := jdel st.remotePeers p.2.socketId },
     [ClientOut.closedPeer p.2.socketId])

/-- The `user-left` socket listener: it reads only `data.userId` and
calls `removePeerConnection`; the departing socket id in the payload is
never consulted. -/
def onUserLeft (st : ClientState) (uid _sockId : String) :
    ClientState × List ClientOut :=
  removePeerConnection st uid

/-- `getVideoTracks()[0]` / `getAudioTracks()[0]`. -/
def firstTrack (k : String) (ts : List Track) : Option Track :=
  ts.find? (fun t => t.kind == k)

/-- Assignment to `.enabled` of the first track of the given kind. -/
def setFirstTrack (k : String) (e : Bool) : List Track → List Track
  | [] => []
  | t :: ts =>
    if t.kind == k then { t with enabled := e } :: ts
    else t :: setFirstTrack k e ts

/-- Shared body of `toggleCamera` / `toggleMicrophone`: flip the first
local track of the kind, write the new enabled bit onto the first
matching sender track of every peer connection, and return the new
state (`false` when there is no stream or no such track). -/
def toggleKind (st : ClientState) (k : String) : ClientState × Bool :=
  match st.localStream with
  | none => (st, false)
  | some ts =>
    match firstTrack k ts with
    | none => (st, false)
    | some vt =>
      let nv := !vt.enabled
      let ts2 := setFirstTrack k nv ts
      let peers2 := st.remotePeers.map
        (fun p => (p.1, { p.2 with senders := setFirstTrack k nv p.2.senders }))
      ({ st with localStream := some ts2, remotePeers := peers2 }, nv)

def toggleCamera (st : ClientState) : ClientState × Bool := toggleKind st "video"

def toggleMicrophone (st : ClientState) : ClientState × Bool := toggleKind st "audio"

/-! ### Toolkit lemmas about the JavaScript map embedding -/

theorem jget_cons {α : Type} (q : String × α) (m : JMap α) (k : String) :
    jget (q :: m) k = if q.1 == k then some q.2 else jget m k := by
  by_cases h : (q.1 == k) = true
  · simp [jget, List.find?_cons_of_pos, h]
  · simp only [Bool.not_eq_true] at h
    simp [jget, List.find?_cons_of_neg, h]

theorem jhas_cons {α : Type} (q : String × α) (m : JMap α) (k : String) :
    jhas (q :: m) k = (q.1 == k || jhas m k) := by
  simp [jhas]

theorem jset_cons_ne {α : Type} (q : String × α) (m : JMap α) {k : String} (v : α)
    (hq : (q.1 == k) = false) : jset (q :: m) k v = q :: jset m k v := by
  have hq' : ¬ q.1 = k := by simpa using hq
  by_cases hm : jhas m k = true
  · simp [jset, jhas_cons, hq, hm, hq']
  · simp only [Bool.not_eq_true] at hm
    simp [jset, jhas_cons, hq, hm, hq']

theorem jset_cons_eq {α : Type} (q : String × α) (m : JMap α) {k : String} (v : α)
    (hq : (q.1 == k) = true) :
    jset (q :: m) k v = (k, v) :: m.map (fun p => if p.1 == k then (k, v) else p) := by
  have hq' : q.1 = k := by simpa using hq
  simp [jset, jhas_cons, hq, hq']

theorem jget_jset {α : Type} (m : JMap α) (k : String) (v : α) :
    jget (jset m k v) k = some v := by
  induction m with
  | nil => simp [jset, jhas, jget_cons]
  | cons q m ih =>
    by_cases hq : (q.1 == k) = true
    · rw [jset_cons_eq q m v hq, jget_cons]
      simp
    · simp only [Bool.not_eq_true] at hq
      rw [jset_cons_ne q m v hq, jget_cons, hq]
      simpa using ih

theorem jget_of_not_has {α : Type} {m : JMap α} {k : String}
    (h : jhas m k = false) : jget m k = none := by
  induction m with
  | nil => rfl
  | cons q m ih =>
    rw [jhas_cons, Bool.or_eq_false_iff] at h
    rw [jget_cons, h.1]
    simpa using ih h.2

theorem jhas_of_jget {α : Type} {m : JMap α} {k : String} {v : α}
    (h : jget m k = some v) : jhas m k = true := by
  by_contra hc
  rw [Bool.not_eq_true] at hc
  rw [jget_of_not_has hc] at h
  exact Option.noConfusion h

theorem jget_mem {α : Type} {m : JMap α} {k : String} {v : α}
    (h : jget m k = some v) : (k, v) ∈ m := by
  induction m with
  | nil => exact absurd h (by simp [jget])
  | cons q m ih =>
    rw [jget_cons] at h
    by_cases hq : (q.1 == k) = true
    · rw [if_pos hq] at h
      have hk : q.1 = k := beq_iff_eq.mp hq
      have hv : q.2 = v := Option.some.inj h
      have hqe : (k, v) = q := by rw [← hk, ← hv]
      rw [hqe]
      exact List.mem_cons_self q m
    · rw [if_neg (by simp_all)] at h
      exact List.mem_cons_of_mem q (ih h)

theorem mem_jset {α : Type} {m : JMap α} {k : String} {v : α} {p : String × α}
    (h : p ∈ jset m k v) : p = (k, v) ∨ (p ∈ m ∧ (p.1 == k) = false) := by
  induction m with
  | nil =>
    left
    simpa [jset, jhas] using h
  | cons q m ih =>
    by_cases hq : (q.1 == k) = true
    · rw [jset_cons_eq q m v hq] at h
      rcases List.mem_cons.mp h with h1 | h2
      · exact Or.inl h1
      · rcases List.mem_map.mp h2 with ⟨r, hr, hrp⟩
        by_cases hrk : (r.1 == k) = true
        · rw [if_pos hrk] at hrp
          exact Or.inl hrp.symm
        · rw [if_neg (by simp_all)] at hrp
          right
          refine ⟨hrp ▸ List.mem_cons_of_mem q hr, ?_⟩
          rw [← hrp]
          simpa using hrk
    · simp only [Bool.not_eq_true] at hq
      rw [jset_cons_ne q m v hq] at h
      rcases List.mem_cons.mp h with h1 | h2
      · right
        exact ⟨h1 ▸ List.mem_cons_self q m, by rw [h1]; exact hq⟩
      · rcases ih h2 with h3 | ⟨h4, h5⟩
        · exact Or.inl h3
        · exact Or.inr ⟨List.mem_cons_of_mem q h4, h5⟩

theorem length_jset {α : Type} (m : JMap α) (k : String) (v : α) :
    (jset m k v).length = if jhas m k then m.length else m.length + 1 := by
  by_cases h : jhas m k = true
  · simp [jset, h]
  · simp only [Bool.not_eq_true] at h
    simp [jset, h]

theorem one_le_length_jset {α : Type} (m : JMap α) (k : String) (v : α) :
    1 ≤ (jset m k v).length := by
  rw [length_jset]
  by_cases h : jhas m k = true
  · rw [if_pos h]
    rcases m with _ | ⟨q, m⟩
    · exact absurd h (by simp [jhas])
    · simp
  · rw [if_neg h]
    omega

theorem length_jset_le {α : Type} (m : JMap α) (k : String) (v : α) :
    (jset m k v).length ≤ m.length + 1 := by
  rw [length_jset]
  by_cases h : jhas m k = true
  · rw [if_pos h]; omega
  · rw [if_neg h]

theorem mem_jdel {α : Type} {m : JMap α} {k : String} {p : String × α}
    (h : p ∈ jdel m k) : p ∈ m ∧ (p.1 == k) = false := by
  have := List.mem_filter.mp h
  refine ⟨this.1, ?_⟩
  have h2 := this.2
  simpa [bne] using h2

theorem length_jdel_le {α : Type} (m : JMap α) (k : String) :
    (jdel m k).length ≤ m.length :=
  List.length_filter_le _ m

theorem jhas_jdel_self {α : Type} (m : JMap α) (k : String) :
    jhas (jdel m k) k = false := by
  by_contra hc
  rw [Bool.not_eq_false, jhas, List.any_eq_true] at hc
  rcases hc with ⟨p, hp, hpk⟩
  have := (mem_jdel hp).2
  rw [this] at hpk
  exact Bool.noConfusion hpk

theorem jget_jdel_self {α : Type} (m : JMap α) (k : String) :
    jget (jdel m k) k = none :=
  jget_of_not_has (jhas_jdel_self m k)

theorem jdel_of_not_has {α : Type} {m : JMap α} {k : String}
    (h : jhas m k = false) : jdel m k = m := by
  rw [jdel, List.filter_eq_self]
  intro p hp
  rw [jhas] at h
  have : (p.1 == k) = false := by
    by_contra hc
    rw [Bool.not_eq_false] at hc
    exact Bool.noConfusion (h ▸ List.any_eq_true.mpr ⟨p, hp, hc⟩)
  simpa [bne] using this

theorem map_eq_self_of_eq {α : Type} {f : α → α} {l : List α}
    (h : ∀ a ∈ l, f a = a) : l.map f = l := by
  induction l with
  | nil => rfl
  | cons x l ih =>
    rw [List.map_cons, h x (List.mem_cons_self x l),
      ih (fun a ha => h a (List.mem_cons_of_mem x ha))]

theorem map_congr_mem {α β : Type} {f g : α → β} {l : List α}
    (h : ∀ a ∈ l, f a = g a) : l.map f = l.map g := by
  induction l with
  | nil => rfl
  | cons x l ih =>
    rw [List.map_cons, List.map_cons, h x (List.mem_cons_self x l),
      ih (fun a ha => h a (List.mem_cons_of_mem x ha))]

theorem not_mem_keys_of_not_has {α : Type} {m : JMap α} {k : String}
    (h : jhas m k = false) : k ∉ m.map Prod.fst := by
  intro hk
  rcases List.mem_map.mp hk with ⟨p, hp, hpk⟩
  have hb : (p.1 == k) = true := beq_iff_eq.mpr hpk
  have hany : jhas m k = true := by
    rw [jhas]
    exact List.any_eq_true.mpr ⟨p, hp, hb⟩
  rw [h] at hany
  exact Bool.noConfusion hany

theorem keys_jset_of_has {α : Type} {m : JMap α} {k : String} (v : α)
    (h : jhas m k = true) : (jset m k v).map Prod.fst = m.map Prod.fst := by
  rw [jset, if_pos h, List.map_map]
  apply map_congr_mem
  intro p _
  by_cases hq : (p.1 == k) = true
  · simp only [Function.comp_apply, if_pos hq]
    exact (beq_iff_eq.mp hq).symm
  · simp only [Function.comp_apply, if_neg hq]

theorem keys_jset_of_not_has {α : Type} {m : JMap α} {k : String} (v : α)
    (h : jhas m k = false) : (jset m k v).map Prod.fst = m.map Prod.fst ++ [k] := by
  rw [jset, if_neg (by simp [h]), List.map_append]
  rfl

theorem nodup_keys_jset {α : Type} {m : JMap α} {k : String} (v : α)
    (h : (m.map Prod.fst).Nodup) : ((jset m k v).map Prod.fst).Nodup := by
  by_cases hm : jhas m k = true
  · rw [keys_jset_of_has v hm]
    exact h
  · have hm' : jhas m k = false := by simpa using hm
    rw [keys_jset_of_not_has v hm']
    have := not_mem_keys_of_not_has hm'
    simp [List.nodup_append, h, this]

theorem nodup_keys_jdel {α : Type} {m : JMap α} (k : String)
    (h : (m.map Prod.fst).Nodup) : ((jdel m k).map Prod.fst).Nodup :=
  (List.Sublist.map Prod.fst (List.filter_sublist m)).nodup h

theorem jset_self {α : Type} {m : JMap α} {k : String} {v : α}
    (hnd : (m.map Prod.fst).Nodup) (h : jget m k = some v) : jset m k v = m := by
  induction m with
  | nil => exact absurd h (by simp [jget])
  | cons q m ih =>
    rw [List.map_cons, List.nodup_cons] at hnd
    rw [jget_cons] at h
    by_cases hq : (q.1 == k) = true
    · rw [if_pos hq] at h
      have hk : q.1 = k := beq_iff_eq.mp hq
      have hv : q.2 = v := Option.some.inj h
      rw [jset_cons_eq q m v hq]
      have h1 : (k, v) = q := by rw [← hk, ← hv]
      rw [h1]
      congr 1
      apply map_eq_self_of_eq
      intro p hp
      have hpk : (p.1 == k) = false := by
        by_contra hc
        rw [Bool.not_eq_false, beq_iff_eq] at hc
        exact hnd.1 ((hc.trans hk.symm) ▸ List.mem_map.mpr ⟨p, hp, rfl⟩)
      rw [if_neg (by simp [hpk])]
    · rw [if_neg hq] at h
      have hq' : (q.1 == k) = false := by simpa using hq
      rw [jset_cons_ne q m v hq', ih hnd.2 h]

theorem jhas_false_of_jget_none {α : Type} {m : JMap α} {k : String}
    (h : jget m k = none) : jhas m k = false := by
  induction m with
  | nil => rfl
  | cons q m ih =>
    rw [jget_cons] at h
    by_cases hq : (q.1 == k) = true
    · rw [if_pos hq] at h
      exact Option.noConfusion h
    · have hq' : (q.1 == k) = false := by simpa using hq
      rw [if_neg hq] at h
      rw [jhas_cons, hq', Bool.false_or]
      exact ih h

theorem jget_some_of_has {α : Type} {m : JMap α} {k : String}
    (h : jhas m k = true) : ∃ v, jget m k = some v := by
  cases hj : jget m k with
  | none => rw [jhas_false_of_jget_none hj] at h; exact Bool.noConfusion h
  | some v => exact ⟨v, rfl⟩

/-- The capacity and non-emptiness bounds on every registry room. -/
def roomsOK (st : HubState) : Prop :=
  ∀ p ∈ st.roomMembers, 1 ≤ p.2.length ∧ p.2.length ≤ 10

theorem roomsOK_join (st : HubState) (roomId userId socketId peerId : String)
    (h : roomsOK st) : roomsOK (joinRoom st roomId userId socketId peerId).1 := by
  intro p hp
  by_cases hhas : jhas st.roomMembers roomId = true
  · rcases jget_some_of_has hhas with ⟨ru, hru⟩
    have hbounds := h (roomId, ru) (jget_mem hru)
    by_cases hfull : 10 ≤ ru.length
    · simp only [joinRoom, hhas, if_true, hru, Option.getD_some, if_pos hfull] at hp
      exact h p hp
    · simp only [joinRoom, hhas, if_true, hru, Option.getD_some, if_neg hfull] at hp
      rcases mem_jset hp with rfl | ⟨hpm, _⟩
      · refine ⟨one_le_length_jset _ _ _, ?_⟩
        have := length_jdel_le ru socketId
        have h2 := length_jset_le ru socketId
          { userId := userId, socketId := socketId, peerId := peerId }
        simp only at hbounds ⊢
        omega
      · exact h p hpm
  · have hhas' : jhas st.roomMembers roomId = false := by simpa using hhas
    have hget : jget (jset st.roomMembers roomId []) roomId =
        some ([] : JMap Member) := jget_jset _ _ _
    simp only [joinRoom, hhas', Bool.false_eq_true, if_false, hget, Option.getD_some,
      List.length_nil] at hp
    rw [if_neg (by omega)] at hp
    rcases mem_jset hp with rfl | ⟨hpm, hpk⟩
    · show 1 ≤ (jset ([] : JMap Member) socketId
          { userId := userId, socketId := socketId, peerId := peerId }).length ∧
        (jset ([] : JMap Member) socketId
          { userId := userId, socketId := socketId, peerId := peerId }).length ≤ 10
      have h1 := one_le_length_jset ([] : JMap Member) socketId
        { userId := userId, socketId := socketId, peerId := peerId }
      have h2 := length_jset_le ([] : JMap Member) socketId
        { userId := userId, socketId := socketId, peerId := peerId }
      simp only [List.length_nil] at h2
      omega
    · rcases mem_jset hpm with rfl | ⟨hpm2, _⟩
      · simp at hpk
      · exact h p hpm2

theorem roomsOK_leave (st : HubState) (roomId userId socketId : String)
    (h : roomsOK st) : roomsOK (leaveRoom st roomId userId socketId).1 := by
  intro p hp
  cases hj : jget st.roomMembers roomId with
  | none =>
    simp only [leaveRoom, hj] at hp
    exact h p hp
  | some roomUsers =>
    simp only [leaveRoom, hj] at hp
    by_cases hz : (jdel roomUsers socketId).length = 0
    · rw [if_pos hz] at hp
      exact h p (mem_jdel hp).1
    · rw [if_neg hz] at hp
      rcases mem_jset hp with rfl | ⟨hpm, _⟩
      · have hb := h (roomId, roomUsers) (jget_mem hj)
        have hd := length_jdel_le roomUsers socketId
        show 1 ≤ (jdel roomUsers socketId).length ∧ (jdel roomUsers socketId).length ≤ 10
        simp only at hb
        omega
      · exact h p hpm

theorem discRooms_bounds (sr : JMap (List String)) (s : String) :
    ∀ (l : List (String × JMap Member)),
      (∀ p ∈ l, 1 ≤ p.2.length ∧ p.2.length ≤ 10) →
      ∀ p ∈ (discRooms sr s l).1, 1 ≤ p.2.length ∧ p.2.length ≤ 10 := by
  intro l
  induction l with
  | nil =>
    intro _ p hp
    simp [discRooms] at hp
  | cons q l ih =>
    intro h p hp
    obtain ⟨rid, users⟩ := q
    have hrest : ∀ p ∈ l, 1 ≤ p.2.length ∧ p.2.length ≤ 10 :=
      fun p hp => h p (List.mem_cons_of_mem _ hp)
    simp only [discRooms] at hp
    by_cases hhas : jhas users s = true
    · simp only [hhas, if_true] at hp
      by_cases hz : (jdel users s).length = 0
      · rw [if_pos hz] at hp
        exact ih hrest p hp
      · rw [if_neg hz] at hp
        rcases List.mem_cons.mp hp with rfl | hp2
        · have hb := h (rid, users) (List.mem_cons_self _ _)
          have := length_jdel_le users s
          simp only at hb ⊢
          omega
        · exact ih hrest p hp2
    · have hhas' : jhas users s = false := by simpa using hhas
      simp only [hhas', Bool.false_eq_true, if_false] at hp
      rcases List.mem_cons.mp hp with rfl | hp2
      · exact h _ (List.mem_cons_self _ _)
      · exact ih hrest p hp2

theorem roomsOK_disc (st : HubState) (s : String) (h : roomsOK st) :
    roomsOK (disconnect st s).1 := by
  intro p hp
  simp only [disconnect] at hp
  exact discRooms_bounds _ s st.roomMembers h p hp

theorem roomsOK_step (st : HubState) (c : HubCmd) (h : roomsOK st) :
    roomsOK (stepHub st c).1 := by
  cases c with
  | join a b c2 d => exact roomsOK_join st a b c2 d h
  | leave a b c2 => exact roomsOK_leave st a b c2 h
  | disc a => exact roomsOK_disc st a h

theorem roomsOK_run (st : HubState) (cmds : List HubCmd) (h : roomsOK st) :
    roomsOK (runHub st cmds) := by
  induction cmds generalizing st with
  | nil => exact h
  | cons c cs ih => exact ih _ (roomsOK_step st c h)

/-- C1: after every sequence of join-room, leave-room and disconnect
events processed by the hub, every room present in the registry has
between 1 and 10 members inclusive — the capacity never exceeds 10, and
a room whose member map becomes empty is deleted, so no zero-member room
is observable between events. -/
theorem hub_room_capacity_invariant (cmds : List HubCmd) :
    ∀ p ∈ (runHub initHub cmds).roomMembers, 1 ≤ p.2.length ∧ p.2.length ≤ 10 :=
  roomsOK_run initHub cmds (by intro p hp; simp [initHub] at hp)

def c1Room : JMap Member := [("s1", { userId := "u1", socketId := "s1", peerId := "p1" })]

/-- Witness for C1: the room created by one concrete join obeys the bounds. -/
theorem hub_room_capacity_invariant_witness :
    1 ≤ ("r", c1Room).2.length ∧ ("r", c1Room).2.length ≤ 10 :=
  hub_room_capacity_invariant [HubCmd.join "r" "u1" "s1" "p1"] ("r", c1Room) (by decide)

/-- C2: a join attempt on a room that already holds 10 members, by a
socket that is not one of them, emits exactly one
`error{message:"Room is full"}` to the joining socket and leaves the hub
state (registry and broadcast groups) completely unchanged: no member is
inserted, no `room-joined` is sent, and the joiner is not added to the
broadcast group. -/
theorem join_full_room_rejected (st : HubState) (roomId userId socketId peerId : String)
    (ru : JMap Member) (hget : jget st.roomMembers roomId = some ru)
    (hlen : ru.length = 10) (hnotin : jhas ru socketId = false) :
    joinRoom st roomId userId socketId peerId =
      (st, [OutEvent.error socketId "Room is full"]) := by
  have hhas : jhas st.roomMembers roomId = true := jhas_of_jget hget
  simp only [joinRoom, hhas, if_true, hget, Option.getD_some, hlen]
  rw [if_pos (by omega)]

def c2FullRoom : JMap Member :=
  [("s1", { userId := "u1", socketId := "s1", peerId := "q1" }),
   ("s2", { userId := "u2", socketId := "s2", peerId := "q2" }),
   ("s3", { userId := "u3", socketId := "s3", peerId := "q3" }),
   ("s4", { userId := "u4", socketId := "s4", peerId := "q4" }),
   ("s5", { userId := "u5", socketId := "s5", peerId := "q5" }),
   ("s6", { userId := "u6", socketId := "s6", peerId := "q6" }),
   ("s7", { userId := "u7", socketId := "s7", peerId := "q7" }),
   ("s8", { userId := "u8", socketId := "s8", peerId := "q8" }),
   ("s9", { userId := "u9", socketId := "s9", peerId := "q9" }),
   ("s10", { userId := "u10", socketId := "s10", peerId := "q10" })]

def c2St : HubState :=
  { roomMembers := [("R2", c2FullRoom)],
    socketRooms := [("R2", ["s1", "s2", "s3", "s4", "s5", "s6", "s7", "s8", "s9", "s10"])] }

/-- Witness for C2: the 11th join attempt on a concrete 10-member room. -/
theorem join_full_room_rejected_witness :
    joinRoom c2St "R2" "u11" "s11" "q11" = (c2St, [OutEvent.error "s11" "Room is full"]) :=
  join_full_room_rejected c2St "R2" "u11" "s11" "q11" c2FullRoom
    (by decide) (by decide) (by decide)

def c3Peer : RemotePeer :=
  { userId := "bob", peerId := "pb", socketId := "B",
    signalingState := SignalingState.stable,
    iceConnectionState := IceConnState.connected,
    remoteDescription := none, candidates := [], senders := [],
    stream := none, isInitiator := true }

def c3St : ClientState :=
  { roomId := "r", userId := "alice", socketConnected := true,
    localStream := none, remotePeers := [("B", c3Peer)], isNegotiating := [] }

/-- Counterexample to C3 as stated: a session whose signaling state is
`stable` but whose ICE connection state is not `new` is NOT offered to —
`createOffer` returns without generating, applying or sending anything,
even though the session is not negotiating, the socket is connected and
the engine would succeed.  So "exactly when the signaling state is
stable" is false of the code: the guard also requires
`iceConnectionState === 'new'`. -/
theorem createOffer_stable_not_sufficient :
    c3Peer.signalingState = SignalingState.stable ∧
    c3St.isNegotiating.contains c3Peer.socketId = false ∧
    c3St.socketConnected = true ∧
    createOffer c3St c3Peer true = (c3St, []) := by decide

/-- C3 (amended): `createOffer` is a silent no-op when the session's
negotiating flag is already set; otherwise the negotiating flag is
released by the end of the call in every case, and the offer is
generated, applied locally (signaling state becomes `have-local-offer`)
and sent with `targetPeerId` equal to the session's remote peer id
exactly when the signaling state is `stable` AND the ICE connection
state is `new` AND the engine calls succeed AND the socket exists; in
every other case state and output are untouched. -/
theorem createOffer_spec (st : ClientState) (peer : RemotePeer) (engineOk : Bool) :
    (st.isNegotiating.contains peer.socketId = true →
      createOffer st peer engineOk = (st, [])) ∧
    (st.isNegotiating.contains peer.socketId = false →
      (createOffer st peer engineOk).1.isNegotiating = st.isNegotiating ∧
      ((createOffer st peer engineOk).2 =
          [ClientOut.sendOffer st.roomId (some peer.peerId)] ↔
        (peer.signalingState = SignalingState.stable ∧
         peer.iceConnectionState = IceConnState.new ∧
         engineOk = true ∧ st.socketConnected = true)) ∧
      ((peer.signalingState = SignalingState.stable ∧
        peer.iceConnectionState = IceConnState.new ∧ engineOk = true) →
        jget (createOffer st peer engineOk).1.remotePeers peer.socketId =
          some { peer with signalingState := SignalingState.haveLocalOffer }) ∧
      (¬ (peer.signalingState = SignalingState.stable ∧
          peer.iceConnectionState = IceConnState.new ∧ engineOk = true) →
        createOffer st peer engineOk = (st, []))) := by
  refine ⟨fun hn => ?_, fun hn => ?_⟩
  · have hn' : peer.socketId ∈ st.isNegotiating := by simpa using hn
    simp [createOffer, hn']
  · have hn' : peer.socketId ∉ st.isNegotiating := by simpa using hn
    by_cases hg : peer.signalingState = SignalingState.stable ∧
        peer.iceConnectionState = IceConnState.new
    · by_cases he : engineOk = true
      · by_cases hs : st.socketConnected = true
        · have hco : createOffer st peer engineOk = ({ st with remotePeers := jset st.remotePeers peer.socketId { peer with signalingState := SignalingState.haveLocalOffer } }, [ClientOut.sendOffer st.roomId (some peer.peerId)]) := by
            simp [createOffer, hn', hg, he, hs]
          refine ⟨by rw [hco], ?_, ?_, ?_⟩
          · rw [hco]
            simp [hg.1, hg.2, he, hs]
          · intro _
            rw [hco]
            exact jget_jset _ _ _
          · intro hcon
            exact absurd ⟨hg.1, hg.2, he⟩ hcon
        · have hs' : st.socketConnected = false := by simpa using hs
          have hco : createOffer st peer engineOk = ({ st with remotePeers := jset st.remotePeers peer.socketId { peer with signalingState := SignalingState.haveLocalOffer } }, []) := by
            simp [createOffer, hn', hg, he, hs']
          refine ⟨by rw [hco], ?_, ?_, ?_⟩
          · rw [hco]
            simp [hs']
          · intro _
            rw [hco]
            exact jget_jset _ _ _
          · intro hcon
            exact absurd ⟨hg.1, hg.2, he⟩ hcon
      · have he' : engineOk = false := by simpa using he
        have hco : createOffer st peer engineOk = (st, []) := by
          simp [createOffer, hn', hg, he']
        refine ⟨by rw [hco], ?_, ?_, ?_⟩
        · rw [hco]
          simp [he']
        · intro hcon
          exact absurd hcon.2.2 he
        · intro _
          exact hco
    · have hco : createOffer st peer engineOk = (st, []) := by
        simp [createOffer, hn', hg]
      refine ⟨by rw [hco], ?_, ?_, ?_⟩
      · rw [hco]
        constructor
        · intro hfalse
          exact absurd hfalse (by simp)
        · intro hr
          exact absurd ⟨hr.1, hr.2.1⟩ hg
      · intro hcon
        exact absurd ⟨hcon.1, hcon.2.1⟩ hg
      · intro _
        exact hco

def c3wPeer : RemotePeer :=
  { userId := "bob", peerId := "pb", socketId := "B",
    signalingState := SignalingState.stable,
    iceConnectionState := IceConnState.new,
    remoteDescription := none, candidates := [], senders := [],
    stream := none, isInitiator := true }

def c3wSt : ClientState :=
  { roomId := "r", userId := "alice", socketConnected := true,
    localStream := none, remotePeers := [("B", c3wPeer)], isNegotiating := ["B"] }

/-- Witness for the amended C3: with the negotiating flag already held,
a concrete `createOffer` call is a silent no-op. -/
theorem createOffer_spec_witness :
    createOffer c3wSt c3wPeer true = (c3wSt, []) :=
  (createOffer_spec c3wSt c3wPeer true).1 (by decide)

theorem hubstate_eq (a b : HubState) (h1 : a.roomMembers = b.roomMembers)
    (h2 : a.socketRooms = b.socketRooms) : a = b := by
  cases a
  cases b
  simp_all

theorem socketLeave_idem (sr : JMap (List String)) (r s : String)
    (hnd : (sr.map Prod.fst).Nodup) :
    socketLeave (socketLeave sr r s) r s = socketLeave sr r s := by
  cases hj : jget sr r with
  | none => simp [socketLeave, hj]
  | some cur =>
    have hg2 : jget (jset sr r (cur.filter (fun x => x != s))) r =
        some (cur.filter (fun x => x != s)) := jget_jset _ _ _
    have hff : (cur.filter (fun x => x != s)).filter (fun x => x != s) =
        cur.filter (fun x => x != s) :=
      List.filter_eq_self.mpr (fun a ha => (List.mem_filter.mp ha).2)
    simp only [socketLeave, hj, hg2, hff]
    exact jset_self (nodup_keys_jset _ hnd) hg2

def c4St : HubState :=
  runHub initHub [HubCmd.join "r" "a" "A" "pa", HubCmd.join "r" "b" "B" "pb",
    HubCmd.leave "r" "a" "A"]

/-- Counterexample to C4 as stated: after socket `A` has already left
room `r` (state `c4St`), a second identical leave changes no registry or
broadcast-group state, but it DOES produce an observable effect — the
handler emits `user-left` unconditionally, so the remaining member `B`
receives a second `user-left{userId:"a", socketId:"A"}` broadcast. -/
theorem leave_second_broadcast_observed :
    (leaveRoom c4St "r" "a" "A").1 = c4St ∧
    (leaveRoom c4St "r" "a" "A").2 = [OutEvent.userLeft ["B"] "a" "A"] ∧
    (leaveRoom c4St "r" "a" "A").2 ≠ [] := by decide

/-- C4 (amended): leave is idempotent on the hub state — after a first
leave removed the socket, a second leave for the same socket and room
changes no registry or broadcast-group state; but it is not free of
observable effects: the second leave still emits one `user-left`
broadcast to the sockets currently in the room's broadcast group. -/
theorem leave_second_time_state_noop (st : HubState) (roomId userId socketId : String)
    (hrm : (st.roomMembers.map Prod.fst).Nodup)
    (hsr : (st.socketRooms.map Prod.fst).Nodup) :
    leaveRoom (leaveRoom st roomId userId socketId).1 roomId userId socketId =
      ((leaveRoom st roomId userId socketId).1,
       [OutEvent.userLeft
         (roomRecipients (leaveRoom st roomId userId socketId).1.socketRooms
           roomId socketId)
         userId socketId]) := by
  have hsrI := socketLeave_idem st.socketRooms roomId socketId hsr
  cases hj : jget st.roomMembers roomId with
  | none =>
    have hst1 : (leaveRoom st roomId userId socketId).1 =
        ⟨st.roomMembers, socketLeave st.socketRooms roomId socketId⟩ := by
      simp [leaveRoom, hj]
    rw [hst1]
    simp [leaveRoom, hj, hsrI]
  | some ru =>
    by_cases hz : (jdel ru socketId).length = 0
    · have hz' : jdel ru socketId = [] := by
        rwa [List.length_eq_zero] at hz
      have hst1 : (leaveRoom st roomId userId socketId).1 =
          ⟨jdel st.roomMembers roomId, socketLeave st.socketRooms roomId socketId⟩ := by
        simp [leaveRoom, hj, hz']
      rw [hst1]
      simp [leaveRoom, jget_jdel_self, hsrI]
    · have hz' : ¬ jdel ru socketId = [] := by
        rw [← List.length_eq_zero]
        exact hz
      have hst1 : (leaveRoom st roomId userId socketId).1 =
          ⟨jset st.roomMembers roomId (jdel ru socketId),
           socketLeave st.socketRooms roomId socketId⟩ := by
        simp [leaveRoom, hj, hz']
      have hg2 : jget (jset st.roomMembers roomId (jdel ru socketId)) roomId =
          some (jdel ru socketId) := jget_jset _ _ _
      have hdd : jdel (jdel ru socketId) socketId = jdel ru socketId :=
        jdel_of_not_has (jhas_jdel_self ru socketId)
      rw [hst1]
      simp [leaveRoom, hg2, hdd, hz', hsrI,
        jset_self (nodup_keys_jset _ hrm) hg2]

def c4wSt : HubState :=
  runHub initHub [HubCmd.join "r" "a" "A" "pa", HubCmd.join "r" "b" "B" "pb"]

/-- Witness for the amended C4 at a concrete two-member room. -/
theorem leave_second_time_state_noop_witness :
    leaveRoom (leaveRoom c4wSt "r" "a" "A").1 "r" "a" "A" =
      ((leaveRoom c4wSt "r" "a" "A").1,
       [OutEvent.userLeft
         (roomRecipients (leaveRoom c4wSt "r" "a" "A").1.socketRooms "r" "A")
         "a" "A"]) :=
  leave_second_time_state_noop c4wSt "r" "a" "A" (by decide) (by decide)

/-- C5: an offer/answer/ice-candidate message from a member of a room is
forwarded as exactly one broadcast whose receivers are all other members
of the room and never the sender, with `from` set to the sender's socket
id and `targetPeerId` passed through unchanged; the receiver set does
not depend on the payload or on `targetPeerId` (the hub neither inspects
the payload nor filters delivery by `targetPeerId`).  The hypothesis is
the hub's standing synchrony between a room's broadcast group and its
member map. -/
theorem relay_broadcast_spec (st : HubState) (etype roomId sender payload : String)
    (tp : Option String)
    (hsync : (jget st.socketRooms roomId).getD [] =
      ((jget st.roomMembers roomId).getD []).map Prod.fst) :
    relayEvent st etype roomId sender payload tp =
      [OutEvent.forwarded etype (roomRecipients st.socketRooms roomId sender)
        payload sender tp] ∧
    sender ∉ roomRecipients st.socketRooms roomId sender ∧
    (∀ s, s ∈ roomRecipients st.socketRooms roomId sender ↔
      (jhas ((jget st.roomMembers roomId).getD []) s = true ∧ s ≠ sender)) ∧
    (∀ payload2 tp2, relayEvent st etype roomId sender payload2 tp2 =
      [OutEvent.forwarded etype (roomRecipients st.socketRooms roomId sender)
        payload2 sender tp2]) := by
  refine ⟨rfl, ?_, ?_, fun _ _ => rfl⟩
  · intro hmem
    simp only [roomRecipients] at hmem
    have h2 := List.mem_filter.mp hmem
    simp at h2
  · intro s
    simp only [roomRecipients]
    constructor
    · intro hs
      have h2 := List.mem_filter.mp hs
      refine ⟨?_, by simpa using h2.2⟩
      have hmm : s ∈ ((jget st.roomMembers roomId).getD []).map Prod.fst := by
        rw [← hsync]
        exact h2.1
      rcases List.mem_map.mp hmm with ⟨p, hp, hps⟩
      rw [jhas, List.any_eq_true]
      exact ⟨p, hp, beq_iff_eq.mpr hps⟩
    · rintro ⟨hhas, hne⟩
      rw [jhas, List.any_eq_true] at hhas
      rcases hhas with ⟨p, hp, hpk⟩
      apply List.mem_filter.mpr
      refine ⟨?_, by simpa using hne⟩
      rw [hsync]
      exact List.mem_map.mpr ⟨p, hp, beq_iff_eq.mp hpk⟩

def c5St : HubState :=
  runHub initHub [HubCmd.join "r" "a" "A" "pa", HubCmd.join "r" "b" "B" "pb"]

/-- Witness for C5: in a concrete two-member room the sender is not
among the receivers of its own forwarded offer. -/
theorem relay_broadcast_spec_witness :
    "A" ∉ roomRecipients c5St.socketRooms "r" "A" :=
  (relay_broadcast_spec c5St "offer" "r" "A" "sdp" none (by decide)).2.1

theorem discRooms_spec (sr : JMap (List String)) (s : String) :
    ∀ l : List (String × JMap Member), (∀ p ∈ l, p.2 ≠ []) →
      (discRooms sr s l).2 = (l.filter (fun p => jhas p.2 s)).map
          (fun p => OutEvent.userLeft (roomRecipients sr p.1 s)
            (((jget p.2 s).map Member.userId).getD "unknown") s) ∧
      (discRooms sr s l).1 = (l.map (fun p => (p.1, jdel p.2 s))).filter
          (fun p => !p.2.isEmpty) := by
  intro l
  induction l with
  | nil => exact fun _ => ⟨rfl, rfl⟩
  | cons q l ih =>
    intro h
    obtain ⟨rid, users⟩ := q
    obtain ⟨ih2, ih1⟩ := ih (fun p hp => h p (List.mem_cons_of_mem _ hp))
    by_cases hhas : jhas users s = true
    · by_cases hz : (jdel users s).length = 0
      · have hz' : jdel users s = [] := by rwa [List.length_eq_zero] at hz
        simp [discRooms, List.filter_cons, hhas, hz', ih1, ih2]
      · have hz' : ¬ jdel users s = [] := by
          rw [← List.length_eq_zero]
          exact hz
        simp [discRooms, List.filter_cons, hhas, hz', ih1, ih2]
    · have hhas' : jhas users s = false := by simpa using hhas
      have hdd : jdel users s = users := jdel_of_not_has hhas'
      have hnemp : users ≠ [] := h (rid, users) (List.mem_cons_self _ _)
      simp [discRooms, List.filter_cons, hhas', hdd, hnemp, ih1, ih2]

/-- C6: processing a socket's transport disconnect emits exactly one
`user-left` per registry room that contained the socket, in registry
order, and none for other rooms; in the same single pass the socket's
member entry is removed from every room and each room that becomes empty
is deleted from the registry. -/
theorem disconnect_spec (st : HubState) (s : String)
    (hne : ∀ p ∈ st.roomMembers, p.2 ≠ []) :
    (disconnect st s).2 =
      (st.roomMembers.filter (fun p => jhas p.2 s)).map
        (fun p => OutEvent.userLeft
          (roomRecipients (socketLeaveAll st.socketRooms s) p.1 s)
          (((jget p.2 s).map Member.userId).getD "unknown") s) ∧
    (disconnect st s).1.roomMembers =
      (st.roomMembers.map (fun p => (p.1, jdel p.2 s))).filter
        (fun p => !p.2.isEmpty) :=
  discRooms_spec (socketLeaveAll st.socketRooms s) s st.roomMembers hne

def c6St : HubState :=
  runHub initHub [HubCmd.join "r1" "a" "A" "pa", HubCmd.join "r1" "b" "B" "pb",
    HubCmd.join "r2" "a" "A" "pa2"]

/-- Witness for C6: a concrete client in two rooms, one of which it
shares with another member. -/
theorem disconnect_spec_witness :
    (disconnect c6St "A").2 =
      (c6St.roomMembers.filter (fun p => jhas p.2 "A")).map
        (fun p => OutEvent.userLeft
          (roomRecipients (socketLeaveAll c6St.socketRooms "A") p.1 "A")
          (((jget p.2 "A").map Member.userId).getD "unknown") "A") ∧
    (disconnect c6St "A").1.roomMembers =
      (c6St.roomMembers.map (fun p => (p.1, jdel p.2 "A"))).filter
        (fun p => !p.2.isEmpty) :=
  disconnect_spec c6St "A" (by decide)

/-- C7: `handleAnswer` applies the remote answer to the engine if and
only if the session's signaling state is `have-local-offer` (the
successful application reaches `stable`); in every other state the
answer is dropped with no state change and no output at all — in
particular no negotiation-state-conflict error ever reaches the error
callback. -/
theorem handleAnswer_spec (st : ClientState) (peer : RemotePeer) (ans : String)
    (engineOk errMentionsStable : Bool) :
    (peer.signalingState ≠ SignalingState.haveLocalOffer →
      handleAnswer st peer ans engineOk errMentionsStable = (st, [])) ∧
    (peer.signalingState = SignalingState.haveLocalOffer → engineOk = true →
      handleAnswer st peer ans engineOk errMentionsStable =
        ({ st with remotePeers := jset st.remotePeers peer.socketId { peer with signalingState := SignalingState.stable, remoteDescription := some ans } }, []) ∧
      jget (handleAnswer st peer ans engineOk errMentionsStable).1.remotePeers
          peer.socketId =
        some { peer with signalingState := SignalingState.stable, remoteDescription := some ans }) := by
  constructor
  · intro hs
    simp [handleAnswer, hs]
  · intro hs he
    constructor
    · simp [handleAnswer, hs, he]
    · simp [handleAnswer, hs, he, jget_jset]

def c7Peer : RemotePeer :=
  { userId := "bob", peerId := "pb", socketId := "B",
    signalingState := SignalingState.haveRemoteOffer,
    iceConnectionState := IceConnState.new,
    remoteDescription := none, candidates := [], senders := [],
    stream := none, isInitiator := false }

def c7St : ClientState :=
  { roomId := "r", userId := "alice", socketConnected := true,
    localStream := none, remotePeers := [("B", c7Peer)], isNegotiating := [] }

/-- Witness for C7: a stale answer arriving in `have-remote-offer` is
dropped with no effect and no error. -/
theorem handleAnswer_spec_witness :
    handleAnswer c7St c7Peer "sdp" true false = (c7St, []) :=
  (handleAnswer_spec c7St c7Peer "sdp" true false).1 (by decide)

/-- C8: the `user-left` listener tears down at most one session, namely
the first entry of the peers map whose `userId` equals the event's
`userId`; the departing socket id carried by the event is never
consulted (two listener calls differing only in that field coincide), so
with two live sessions sharing a `userId` the removed session need not
belong to the socket that left; when no session matches, nothing is
removed. -/
theorem userLeft_teardown_spec (st : ClientState) (uid sockId sockId2 : String) :
    onUserLeft st uid sockId = onUserLeft st uid sockId2 ∧
    (st.remotePeers.find? (fun p => p.2.userId == uid) = none →
      onUserLeft st uid sockId = (st, [])) ∧
    (∀ q, st.remotePeers.find? (fun p => p.2.userId == uid) = some q →
      onUserLeft st uid sockId =
        ({ st with remotePeers := jdel st.remotePeers q.2.socketId },
         [ClientOut.closedPeer q.2.socketId])) := by
  refine ⟨rfl, ?_, ?_⟩
  · intro hf
    simp [onUserLeft, removePeerConnection, hf]
  · intro q hf
    simp [onUserLeft, removePeerConnection, hf]

def c8P1 : RemotePeer :=
  { userId := "u", peerId := "p1", socketId := "S1",
    signalingState := SignalingState.stable, iceConnectionState := IceConnState.new,
    remoteDescription := none, candidates := [], senders := [],
    stream := none, isInitiator := true }

def c8P2 : RemotePeer :=
  { c8P1 with peerId := "p2", socketId := "S2" }

def c8St : ClientState :=
  { roomId := "r", userId := "me", socketConnected := true,
    localStream := none, remotePeers := [("S1", c8P1), ("S2", c8P2)],
    isNegotiating := [] }

/-- Witness for C8: two sessions share userId "u"; the event names the
second session's socket `S2`, yet the first session (`S1`) is removed. -/
theorem userLeft_teardown_spec_witness :
    onUserLeft c8St "u" "S2" =
      ({ c8St with remotePeers := jdel c8St.remotePeers "S1" },
       [ClientOut.closedPeer "S1"]) :=
  (userLeft_teardown_spec c8St "u" "S2" "S2").2.2 ("S1", c8P1) (by decide)

/-- C10: an incoming ice-candidate is matched to a session by the
sender's socket id (the `from` field); when no session exists for that
socket the candidate is dropped — the client state is unchanged, no
session is created and no error is raised to any client; when the
session exists (and the candidate is present and accepted by the engine)
the candidate is delivered to exactly that session. -/
theorem iceCandidate_spec (st : ClientState) (fromSocket : String)
    (cand : Option String) (engineOk : Bool) :
    (jget st.remotePeers fromSocket = none →
      handleIceCandidate st fromSocket cand engineOk = (st, [])) ∧
    (∀ peer c, jget st.remotePeers fromSocket = some peer → cand = some c →
      engineOk = true →
      handleIceCandidate st fromSocket cand engineOk =
        ({ st with remotePeers := jset st.remotePeers fromSocket { peer with candidates := peer.candidates ++ [c] } }, [])) := by
  constructor
  · intro hf
    simp [handleIceCandidate, hf]
  · intro peer c hf hc he
    subst hc
    subst he
    simp [handleIceCandidate, hf]

def c10St : ClientState :=
  { roomId := "r", userId := "me", socketConnected := true,
    localStream := none, remotePeers := [], isNegotiating := [] }

/-- Witness for C10: a candidate from an unknown socket is dropped
silently. -/
theorem iceCandidate_spec_witness :
    handleIceCandidate c10St "ghost" (some "cand") true = (c10St, []) :=
  (iceCandidate_spec c10St "ghost" (some "cand") true).1 (by decide)

theorem clientstate_eq (a b : ClientState) (h1 : a.roomId = b.roomId)
    (h2 : a.userId = b.userId) (h3 : a.socketConnected = b.socketConnected)
    (h4 : a.localStream = b.localStream) (h5 : a.remotePeers = b.remotePeers)
    (h6 : a.isNegotiating = b.isNegotiating) : a = b := by
  cases a
  cases b
  simp_all

theorem firstTrack_cons (k : String) (t : Track) (ts : List Track) :
    firstTrack k (t :: ts) = if t.kind == k then some t else firstTrack k ts := by
  by_cases h : (t.kind == k) = true
  · simp [firstTrack, List.find?_cons_of_pos, h]
  · simp only [Bool.not_eq_true] at h
    simp [firstTrack, List.find?_cons_of_neg, h]

theorem setFirstTrack_of_none (k : String) (e : Bool) (ts : List Track)
    (h : firstTrack k ts = none) : setFirstTrack k e ts = ts := by
  induction ts with
  | nil => rfl
  | cons t ts ih =>
    rw [firstTrack_cons] at h
    by_cases hk : (t.kind == k) = true
    · rw [if_pos hk] at h
      exact Option.noConfusion h
    · have hk' : (t.kind == k) = false := by simpa using hk
      rw [if_neg hk] at h
      simp [setFirstTrack, hk', ih h]

theorem firstTrack_setFirstTrack (k : String) (e : Bool) (ts : List Track)
    (vt : Track) (h : firstTrack k ts = some vt) :
    firstTrack k (setFirstTrack k e ts) = some { vt with enabled := e } := by
  induction ts with
  | nil => simp [firstTrack] at h
  | cons t ts ih =>
    rw [firstTrack_cons] at h
    by_cases hk : (t.kind == k) = true
    · rw [if_pos hk] at h
      have hv : t = vt := Option.some.inj h
      subst hv
      simp [setFirstTrack, hk, firstTrack_cons]
    · have hk' : (t.kind == k) = false := by simpa using hk
      rw [if_neg hk] at h
      simp [setFirstTrack, hk', firstTrack_cons, ih h]

theorem setFirstTrack_setFirstTrack (k : String) (e1 e2 : Bool) (ts : List Track) :
    setFirstTrack k e2 (setFirstTrack k e1 ts) = setFirstTrack k e2 ts := by
  induction ts with
  | nil => rfl
  | cons t ts ih =>
    by_cases hk : (t.kind == k) = true
    · simp [setFirstTrack, hk]
    · have hk' : (t.kind == k) = false := by simpa using hk
      simp [setFirstTrack, hk', ih]

theorem setFirstTrack_self (k : String) (ts : List Track) (vt : Track)
    (h : firstTrack k ts = some vt) : setFirstTrack k vt.enabled ts = ts := by
  induction ts with
  | nil => rfl
  | cons t ts ih =>
    rw [firstTrack_cons] at h
    by_cases hk : (t.kind == k) = true
    · rw [if_pos hk] at h
      have hv : t = vt := Option.some.inj h
      subst hv
      simp [setFirstTrack, hk]
    · have hk' : (t.kind == k) = false := by simpa using hk
      rw [if_neg hk] at h
      simp [setFirstTrack, hk', ih h]

/-- C9: toggling a track kind flips the first local track of that kind
and returns the new enabled bit, mirrors the new bit onto the first
matching sender track of every peer session, and toggling twice restores
the whole client state — the local track and every mirrored sender track
return to their original enabled state — and returns the original bit.
The `hsync` hypothesis records the aliasing in the source: each
session's outgoing sender track is the very local track object
(`addTrack(track, localStream)`), so its enabled bit agrees with the
local track's. -/
theorem toggleTrack_spec (st : ClientState) (k : String) (ts : List Track) (vt : Track)
    (hls : st.localStream = some ts) (hvt : firstTrack k ts = some vt)
    (hsync : ∀ p ∈ st.remotePeers,
      Option.all (fun s => s.enabled == vt.enabled) (firstTrack k p.2.senders) = true) :
    (toggleKind st k).2 = !vt.enabled ∧
    (toggleKind st k).1.localStream = some (setFirstTrack k (!vt.enabled) ts) ∧
    (∀ p ∈ (toggleKind st k).1.remotePeers, ∀ s,
      firstTrack k p.2.senders = some s → s.enabled = !vt.enabled) ∧
    toggleKind (toggleKind st k).1 k = (st, vt.enabled) := by
  have htk : toggleKind st k = ({ st with localStream := some (setFirstTrack k (!vt.enabled) ts), remotePeers := st.remotePeers.map (fun p => (p.1, { p.2 with senders := setFirstTrack k (!vt.enabled) p.2.senders })) }, !vt.enabled) := by
    simp [toggleKind, hls, hvt]
  refine ⟨by rw [htk], by rw [htk], ?_, ?_⟩
  · rw [htk]
    intro p hp s hs
    rcases List.mem_map.mp hp with ⟨p0, hp0, rfl⟩
    have hs' : firstTrack k (setFirstTrack k (!vt.enabled) p0.2.senders) = some s := hs
    cases hft : firstTrack k p0.2.senders with
    | none =>
      rw [setFirstTrack_of_none k (!vt.enabled) p0.2.senders hft, hft] at hs'
      exact Option.noConfusion hs'
    | some s0 =>
      rw [firstTrack_setFirstTrack k (!vt.enabled) p0.2.senders s0 hft] at hs'
      have hse := Option.some.inj hs'
      rw [← hse]
  · rw [htk]
    have hft2 : firstTrack k (setFirstTrack k (!vt.enabled) ts) =
        some { vt with enabled := !vt.enabled } :=
      firstTrack_setFirstTrack k (!vt.enabled) ts vt hvt
    have htk2 : toggleKind ({ st with localStream := some (setFirstTrack k (!vt.enabled) ts), remotePeers := st.remotePeers.map (fun p => (p.1, { p.2 with senders := setFirstTrack k (!vt.enabled) p.2.senders })) }) k = ({ st with localStream := some (setFirstTrack k vt.enabled (setFirstTrack k (!vt.enabled) ts)), remotePeers := (st.remotePeers.map (fun p => (p.1, { p.2 with senders := setFirstTrack k (!vt.enabled) p.2.senders }))).map (fun p => (p.1, { p.2 with senders := setFirstTrack k vt.enabled p.2.senders })) }, vt.enabled) := by
      simp [toggleKind, hft2]
    rw [htk2]
    have hst2 : ({ st with localStream := some (setFirstTrack k vt.enabled (setFirstTrack k (!vt.enabled) ts)), remotePeers := (st.remotePeers.map (fun p => (p.1, { p.2 with senders := setFirstTrack k (!vt.enabled) p.2.senders }))).map (fun p => (p.1, { p.2 with senders := setFirstTrack k vt.enabled p.2.senders })) } : ClientState) = st := by
      apply clientstate_eq
      · rfl
      · rfl
      · rfl
      · show some (setFirstTrack k vt.enabled (setFirstTrack k (!vt.enabled) ts)) =
          st.localStream
        rw [setFirstTrack_setFirstTrack, setFirstTrack_self k ts vt hvt, hls]
      · show (st.remotePeers.map (fun p => (p.1, { p.2 with senders := setFirstTrack k (!vt.enabled) p.2.senders }))).map (fun p => (p.1, { p.2 with senders := setFirstTrack k vt.enabled p.2.senders })) = st.remotePeers
        rw [List.map_map]
        apply map_eq_self_of_eq
        intro p0 hp0
        show (p0.1, { p0.2 with senders := setFirstTrack k vt.enabled (setFirstTrack k (!vt.enabled) p0.2.senders) }) = p0
        rw [setFirstTrack_setFirstTrack]
        have hsy := hsync p0 hp0
        cases hft : firstTrack k p0.2.senders with
        | none =>
          rw [setFirstTrack_of_none k vt.enabled p0.2.senders hft]
        | some s0 =>
          rw [hft] at hsy
          have hs0 : s0.enabled = vt.enabled := by simpa [Option.all] using hsy
          rw [← hs0, setFirstTrack_self k p0.2.senders s0 hft]
      · rfl
    rw [hst2]

def c9Track : Track := { kind := "video", enabled := true }

def c9Peer : RemotePeer :=
  { userId := "bob", peerId := "pb", socketId := "B",
    signalingState := SignalingState.stable,
    iceConnectionState := IceConnState.connected,
    remoteDescription := none, candidates := [],
    senders := [{ kind := "audio", enabled := true }, { kind := "video", enabled := true }],
    stream := none, isInitiator := true }

def c9St : ClientState :=
  { roomId := "r", userId := "me", socketConnected := true,
    localStream := some [{ kind := "audio", enabled := true }, c9Track],
    remotePeers := [("B", c9Peer)], isNegotiating := [] }

/-- Witness for C9: toggling the video track of a concrete client twice
restores the whole client state and returns the original enabled bit. -/
theorem toggleTrack_spec_witness :
    toggleKind (toggleKind c9St "video").1 "video" = (c9St, true) :=
  (toggleTrack_spec c9St "video" [{ kind := "audio", enabled := true }, c9Track]
    c9Track rfl (by decide) (by decide)).2.2.2
